import Mathlib

set_option maxRecDepth 20000

/-!
Verification of the CAN sniffer capture core (`My_Modules/Drivers/can/my_can.c`).

The C module keeps a software ring buffer of received CAN frames, a
configuration status record, bit-timing tables for manual and automatic
baud-rate configuration, and a UART reporting path.  The definitions below
are a shallow embedding of that module: the static variables
(`CAN_ring_buffer`, `head`, `tail`, the two overflow flags) become an
explicit state record threaded through the functions, hardware (HAL) calls
become entries of an event trace, and the interrupt-driven FIFO drain is
given the pending hardware FIFO contents as an explicit list.
-/

/-- `#define WAIT_FOR_TRAFFIC 1500` from `my_can.h`. -/
def WAIT_FOR_TRAFFIC : Nat := 1500

/-- `#define SOFTWARE_CAN_BUFFER_SIZE 256` from `my_can.h`. -/
def SOFTWARE_CAN_BUFFER_SIZE : Nat := 256

/-- `my_CAN_BitTiming` from `my_can.h`: one bit-timing table entry. -/
structure my_CAN_BitTiming where
  baudrate : Nat
  prescaler : Nat
  timeSeg1 : Nat
  timeSeg2 : Nat
deriving DecidableEq, Repr

/-- `my_CAN_Status` from `my_can.h`: configuration state record. -/
structure my_CAN_Status where
  is_set : Bool
  baudrate : Nat
  filter_id : Nat
  mask_id : Nat
deriving DecidableEq, Repr

/-- `my_CAN_Frame` from `my_can.h`: software-level CAN frame.  The C
`uint8_t Data[8]` payload array is modelled as a list of bytes. -/
structure my_CAN_Frame where
  Identifier : Nat
  DataLength : Nat
  Data : List Nat
deriving DecidableEq, Repr

/-- The `can_timings[]` table from `my_can.c`, lines 47-60, verbatim. -/
def can_timings : List my_CAN_BitTiming :=
  [⟨5000, 200, 34, 5⟩, ⟨10000, 100, 34, 5⟩, ⟨20000, 50, 34, 5⟩,
   ⟨50000, 20, 34, 5⟩, ⟨100000, 10, 34, 5⟩, ⟨125000, 8, 34, 5⟩,
   ⟨200000, 5, 34, 5⟩, ⟨250000, 4, 34, 5⟩, ⟨400000, 4, 19, 5⟩,
   ⟨500000, 2, 34, 5⟩, ⟨800000, 2, 19, 5⟩, ⟨1000000, 1, 34, 5⟩]

/-- `baudrates_nbr = sizeof(can_timings)/sizeof(can_timings[0])`. -/
def baudrates_nbr : Nat := can_timings.length

/-- The mutable buffer state of `my_can.c`: the static ring buffer array,
its `head` and `tail` indices and the two overflow flags. -/
structure CanState where
  CAN_ring_buffer : Nat → my_CAN_Frame
  head : Nat
  tail : Nat
  software_CAN_buffer_overflow : Bool
  hardware_CAN_buffer_overflow : Bool

/-- A zero-initialised frame (C static initialisation / `= {0}`). -/
def zeroFrame : my_CAN_Frame := ⟨0, 0, List.replicate 8 0⟩

/-- The state at program start: all statics zero-initialised. -/
def initCanState : CanState :=
  { CAN_ring_buffer := fun _ => zeroFrame
    head := 0
    tail := 0
    software_CAN_buffer_overflow := false
    hardware_CAN_buffer_overflow := false }

/-- The enqueue step from `HAL_FDCAN_RxFifo0Callback` (`my_can.c` lines
308-314): compute `next_head = (head + 1) & (SOFTWARE_CAN_BUFFER_SIZE - 1)`;
if it equals `tail` the frame is dropped and the software overflow flag is
set, otherwise the frame is stored at `head` and `head` advances. -/
def enqueue_frame (s : CanState) (frame : my_CAN_Frame) : CanState :=
  let next_head := (s.head + 1) &&& (SOFTWARE_CAN_BUFFER_SIZE - 1)
  if next_head = s.tail then
    { s with software_CAN_buffer_overflow := true }
  else
    { s with
      CAN_ring_buffer := fun i => if i = s.head then frame else s.CAN_ring_buffer i
      head := next_head }

/-- `read_frame_from_software_CAN_buffer` (`my_can.c` lines 325-332):
returns `none` when `head == tail`, else pops the frame at `tail` and
advances `tail` with the same power-of-two mask. -/
def read_frame_from_software_CAN_buffer (s : CanState) :
    Option my_CAN_Frame × CanState :=
  if s.head = s.tail then (none, s)
  else
    (some (s.CAN_ring_buffer s.tail),
     { s with tail := (s.tail + 1) &&& (SOFTWARE_CAN_BUFFER_SIZE - 1) })

/-- The relevant fields of the HAL `FDCAN_RxHeaderTypeDef` read by the
callback. -/
structure FDCAN_RxHeaderTypeDef where
  Identifier : Nat
  DataLength : Nat
deriving DecidableEq, Repr

/-- One message pending in the hardware RX FIFO: the header the HAL would
report plus the 8 `rxData` bytes it would deliver. -/
structure RxMessage where
  header : FDCAN_RxHeaderTypeDef
  data : List Nat
deriving DecidableEq, Repr

/-- Conversion of one received HAL message into a `my_CAN_Frame`
(`my_can.c` lines 300-306): the frame is zero-initialised, `Identifier` and
`DataLength` are copied verbatim (no validation or clamping), and
`memcpy(frame.Data, rxData, rxHeader.DataLength)` copies exactly
`DataLength` bytes over the zeroed payload. -/
def frame_of_rx (msg : RxMessage) : my_CAN_Frame :=
  { Identifier := msg.header.Identifier
    DataLength := msg.header.DataLength
    Data := msg.data.take msg.header.DataLength ++
            List.replicate (8 - msg.header.DataLength) 0 }

/-- The bounded drain loop of `HAL_FDCAN_RxFifo0Callback` (`my_can.c`
lines 298-315): at most `fuel` iterations (the source uses 32); each
iteration reads one message from the hardware FIFO (breaking as soon as
`HAL_FDCAN_GetRxMessage` reports the FIFO empty) and runs the enqueue step.
Returns the new state and the number of successful reads. -/
def rx_drain_loop : Nat → List RxMessage → CanState → CanState × Nat
  | 0, _, s => (s, 0)
  | _ + 1, [], s => (s, 0)
  | n + 1, msg :: rest, s =>
      let s1 := enqueue_frame s (frame_of_rx msg)
      let p := rx_drain_loop n rest s1
      (p.1, p.2 + 1)

/-- `HAL_FDCAN_RxFifo0Callback` (`my_can.c` lines 292-316): if the
interrupt flags indicate `FDCAN_IT_RX_FIFO0_MESSAGE_LOST`, latch the
hardware overflow flag; then read up to 32 frames from the FIFO. -/
def HAL_FDCAN_RxFifo0Callback (message_lost : Bool) (fifo : List RxMessage)
    (s : CanState) : CanState × Nat :=
  let s0 := if message_lost then { s with hardware_CAN_buffer_overflow := true } else s
  rx_drain_loop 32 fifo s0

/-- The scan loop of `my_CAN_manual_configuration` (`my_can.c` lines
117-125): skip entries whose baudrate differs (`continue`); on the first
match return success with the requested baudrate, keeping the stored
filter and mask. -/
def manual_loop (baudrate : Nat) (st : my_CAN_Status) :
    List my_CAN_BitTiming → my_CAN_Status
  | [] => ⟨false, 0, st.filter_id, st.mask_id⟩
  | e :: rest =>
      if e.baudrate ≠ baudrate then manual_loop baudrate st rest
      else ⟨true, baudrate, st.filter_id, st.mask_id⟩

/-- `my_CAN_manual_configuration` (`my_can.c` lines 116-127). -/
def my_CAN_manual_configuration (baudrate : Nat) (st : my_CAN_Status) :
    my_CAN_Status :=
  manual_loop baudrate st can_timings

/-- The probe loop of `my_CAN_auto_configuration` (`my_can.c` lines
143-155), with the hardware probe `check_Fifo()` abstracted as an oracle
`traffic : Nat → Bool` telling whether bus traffic is observed when the
bit timing of table entry `i` is applied.  `fuel` is the number of table
entries still to try (`baudrates_nbr - i`).  Besides the resulting status
the list of attempted entry indices is returned, in attempt order. -/
def auto_loop (traffic : Nat → Bool) (st : my_CAN_Status) :
    Nat → Nat → my_CAN_Status × List Nat
  | _, 0 => (⟨false, 0, st.filter_id, st.mask_id⟩, [])
  | i, fuel + 1 =>
      if traffic i then
        (⟨true, (can_timings.getD i ⟨0, 0, 0, 0⟩).baudrate,
          st.filter_id, st.mask_id⟩, [i])
      else
        let p := auto_loop traffic st (i + 1) fuel
        (p.1, i :: p.2)

/-- `my_CAN_auto_configuration` (`my_can.c` lines 142-156): try the table
entries in order starting at index 0. -/
def my_CAN_auto_configuration (traffic : Nat → Bool) (st : my_CAN_Status) :
    my_CAN_Status × List Nat :=
  auto_loop traffic st 0 baudrates_nbr

/-- HAL filter ID kind (`FDCAN_STANDARD_ID` / `FDCAN_EXTENDED_ID`). -/
inductive FDCAN_IdKind where
  | FDCAN_STANDARD_ID
  | FDCAN_EXTENDED_ID
deriving DecidableEq, Repr

/-- HAL filter type (`FDCAN_FILTER_MASK` / `FDCAN_FILTER_RANGE`). -/
inductive FDCAN_FilterKind where
  | FDCAN_FILTER_MASK
  | FDCAN_FILTER_RANGE
deriving DecidableEq, Repr

/-- HAL filter routing (`FDCAN_FILTER_TO_RXFIFO0` / `..._RXFIFO1`). -/
inductive FDCAN_FilterDest where
  | FDCAN_FILTER_TO_RXFIFO0
  | FDCAN_FILTER_TO_RXFIFO1
deriving DecidableEq, Repr

/-- The fields of the HAL `FDCAN_FilterTypeDef` that `my_can.c` writes. -/
structure FDCAN_FilterTypeDef where
  IdType : FDCAN_IdKind
  FilterIndex : Nat
  FilterType : FDCAN_FilterKind
  FilterConfig : FDCAN_FilterDest
  FilterID1 : Nat
  FilterID2 : Nat
deriving DecidableEq, Repr

/-- `my_CAN_set_filter_mask` (`my_can.c` lines 194-198): both inputs are
masked with `0x7FF` (`filter_id &= 0x7FF`), stored into the static
`sFilterConfig` and into the returned/stored status; `is_set` and
`baudrate` are carried over unchanged. -/
def my_CAN_set_filter_mask (filter_id mask_id : Nat) (st : my_CAN_Status)
    (sf : FDCAN_FilterTypeDef) : my_CAN_Status × FDCAN_FilterTypeDef :=
  let f := filter_id &&& 0x7FF
  let m := mask_id &&& 0x7FF
  (⟨st.is_set, st.baudrate, f, m⟩, { sf with FilterID1 := f, FilterID2 := m })

/-- Hardware (HAL) calls issued by the module, as trace events. -/
inductive HWEvent where
  | fdcanInit
  | configGlobalFilter
  | configFilter (sf : FDCAN_FilterTypeDef)
  | fdcanStart
  | activateNotification
  | fdcanStop
  | deactivateNotification
deriving DecidableEq, Repr

/-- `my_CAN_start` (`my_can.c` lines 237-255): when `is_set` holds, build
the filter configuration (standard ID, index 0, mask type, routed to RX
FIFO 0, using the stored filter and mask), issue init, global-filter
config, filter config, start and notification-activate calls, and return
`true`; otherwise return `false`, issue no hardware call and leave the
filter configuration untouched. -/
def my_CAN_start (st : my_CAN_Status) (sf : FDCAN_FilterTypeDef) :
    Bool × FDCAN_FilterTypeDef × List HWEvent :=
  if st.is_set then
    let sf' : FDCAN_FilterTypeDef :=
      { IdType := .FDCAN_STANDARD_ID
        FilterIndex := 0
        FilterType := .FDCAN_FILTER_MASK
        FilterConfig := .FDCAN_FILTER_TO_RXFIFO0
        FilterID1 := st.filter_id
        FilterID2 := st.mask_id }
    (true, sf',
     [.fdcanInit, .configGlobalFilter, .configFilter sf', .fdcanStart,
      .activateNotification])
  else
    (false, sf, [])

/-- `my_CAN_stop` (`my_can.c` lines 264-268): unconditionally stop the
controller, deactivate the RX notification and reset `head = tail = 0`. -/
def my_CAN_stop (s : CanState) : CanState × List HWEvent :=
  ({ s with head := 0, tail := 0 }, [.fdcanStop, .deactivateNotification])

/-- Uppercase hexadecimal digit for a value `0..15` (printf `%X`). -/
def hexDigitChar (n : Nat) : Char :=
  if n < 10 then Char.ofNat (48 + n) else Char.ofNat (55 + n)

/-- Uppercase hexadecimal digit list of `n` (most significant first,
empty for 0), with explicit fuel so the definition is structural; fuel
`n` always suffices since the value shrinks by a factor 16 per digit. -/
def hexDigitsAux : Nat → Nat → List Char
  | 0, _ => []
  | fuel + 1, n =>
      if n = 0 then []
      else hexDigitsAux fuel (n / 16) ++ [hexDigitChar (n % 16)]

/-- Uppercase hexadecimal digits of `n` (empty list for 0). -/
def hexDigits (n : Nat) : List Char := hexDigitsAux n n

/-- printf `%0wX`: uppercase hexadecimal, zero-padded to `width`. -/
def zeroPadHex (width n : Nat) : String :=
  let ds := hexDigits n
  String.mk (List.replicate (width - ds.length) '0' ++ ds)

/-- The per-frame output of `send_frame_over_UART` (`my_can.c` lines
357-359): `"ID: 0x%03X, DLC: %d, Data:"`, then one `" %02X"` for each
payload byte `Data[i]`, `i = 0 .. DataLength - 1`, then `"\r\n\n"`. -/
def render_frame (f : my_CAN_Frame) : String :=
  "ID: 0x" ++ zeroPadHex 3 f.Identifier ++ ", DLC: " ++ Nat.repr f.DataLength ++
  ", Data:" ++
  String.join ((List.range f.DataLength).map
    (fun i => " " ++ zeroPadHex 2 (f.Data.getD i 0))) ++
  "\r\n\n"

/-- The `while (read_frame_from_software_CAN_buffer(&frame))` loop of
`send_frame_over_UART`, with explicit fuel: pop frames until the buffer
reports empty, collecting the popped frames in order. -/
def uart_drain_loop : Nat → CanState → List my_CAN_Frame × CanState
  | 0, s => ([], s)
  | fuel + 1, s =>
      match read_frame_from_software_CAN_buffer s with
      | (none, _) => ([], s)
      | (some f, s') =>
          let p := uart_drain_loop fuel s'
          (f :: p.1, p.2)

/-- `send_frame_over_UART` (`my_can.c` lines 344-361): first report and
clear the hardware overflow flag if latched, then the software overflow
flag, then print every buffered frame in FIFO order.  The emitted lines
are returned together with the final state. -/
def send_frame_over_UART (fuel : Nat) (s : CanState) :
    List String × CanState :=
  let p1 :=
    if s.hardware_CAN_buffer_overflow then
      (["Hardware CAN FIFO overflow!\r\n"],
       { s with hardware_CAN_buffer_overflow := false })
    else ([], s)
  let p2 :=
    if p1.2.software_CAN_buffer_overflow then
      (["Software CAN buffer overflow!\r\n"],
       { p1.2 with software_CAN_buffer_overflow := false })
    else ([], p1.2)
  let p3 := uart_drain_loop fuel p2.2
  (p1.1 ++ p2.1 ++ p3.1.map render_frame, p3.2)

/-- Number of unread frames currently held by the ring buffer. -/
def countQ (s : CanState) : Nat := (s.head + 256 - s.tail) % 256

/-- The abstract FIFO contents of the ring buffer: the unread frames from
`tail` (oldest) up to `head` (exclusive), in arrival order. -/
def absQ (s : CanState) : List my_CAN_Frame :=
  (List.range (countQ s)).map (fun i => s.CAN_ring_buffer ((s.tail + i) % 256))

/-- Well-formedness of the buffer indices: both are in range.  This holds
for every reachable state because both indices are only ever written
masked with `SOFTWARE_CAN_BUFFER_SIZE - 1` or set to zero. -/
def BufWF (s : CanState) : Prop := s.head < 256 ∧ s.tail < 256

/-- Folding the enqueue step over a list of frames. -/
def enqueueAll (s : CanState) (L : List my_CAN_Frame) : CanState :=
  L.foldl enqueue_frame s

/-! ## Ring buffer abstraction lemmas -/

lemma land_mask_eq_mod (n : Nat) :
    n &&& (SOFTWARE_CAN_BUFFER_SIZE - 1) = n % 256 := by
  have h := Nat.and_pow_two_sub_one_eq_mod n 8
  norm_num at h
  simpa [SOFTWARE_CAN_BUFFER_SIZE] using h

lemma countQ_lt (s : CanState) : countQ s < 256 :=
  Nat.mod_lt _ (by decide)

lemma bufWF_init : BufWF initCanState := by
  constructor <;> simp [initCanState]

lemma countQ_init : countQ initCanState = 0 := by
  simp [countQ, initCanState]

lemma absQ_init : absQ initCanState = [] := by
  simp [absQ, countQ_init]

lemma absQ_of_countQ_zero {s : CanState} (h : countQ s = 0) : absQ s = [] := by
  simp [absQ, h]

/-- When the buffer already holds 255 unread frames, the enqueue step drops
the incoming frame: only the software overflow flag changes. -/
lemma enqueue_frame_full {s : CanState} (hw : BufWF s) (hfull : countQ s = 255)
    (f : my_CAN_Frame) :
    enqueue_frame s f = { s with software_CAN_buffer_overflow := true } := by
  obtain ⟨hh, ht⟩ := hw
  have hm := land_mask_eq_mod (s.head + 1)
  have heq : (s.head + 1) % 256 = s.tail := by
    simp only [countQ] at hfull; omega
  unfold enqueue_frame
  rw [hm, if_pos heq]

/-- When the buffer holds fewer than 255 unread frames, the enqueue step
succeeds: the frame is appended at the write cursor, `head` advances, the
flags and `tail` are untouched, and no stored unread frame changes. -/
lemma enqueue_frame_not_full {s : CanState} (hw : BufWF s)
    (hnf : countQ s < 255) (f : my_CAN_Frame) :
    (enqueue_frame s f).head = (s.head + 1) % 256 ∧
    (enqueue_frame s f).tail = s.tail ∧
    (enqueue_frame s f).software_CAN_buffer_overflow
      = s.software_CAN_buffer_overflow ∧
    (enqueue_frame s f).hardware_CAN_buffer_overflow
      = s.hardware_CAN_buffer_overflow ∧
    BufWF (enqueue_frame s f) ∧
    countQ (enqueue_frame s f) = countQ s + 1 ∧
    absQ (enqueue_frame s f) = absQ s ++ [f] := by
  obtain ⟨hh, ht⟩ := hw
  have hm := land_mask_eq_mod (s.head + 1)
  have hne : ¬ ((s.head + 1) &&& (SOFTWARE_CAN_BUFFER_SIZE - 1) = s.tail) := by
    rw [hm]
    simp only [countQ] at hnf
    omega
  have hstep :
      enqueue_frame s f =
        { s with
          CAN_ring_buffer :=
            fun i => if i = s.head then f else s.CAN_ring_buffer i
          head := (s.head + 1) % 256 } := by
    unfold enqueue_frame
    rw [if_neg hne, hm]
  rw [hstep]
  refine ⟨rfl, rfl, rfl, rfl, ⟨Nat.mod_lt _ (by decide), ht⟩, ?_, ?_⟩
  · simp only [countQ]
    omega
  · have hcount :
        countQ { s with
          CAN_ring_buffer :=
            fun i => if i = s.head then f else s.CAN_ring_buffer i
          head := (s.head + 1) % 256 } = countQ s + 1 := by
      simp only [countQ]
      omega
    simp only [absQ, hcount, List.range_succ, List.map_append, List.map_cons,
      List.map_nil]
    congr 1
    · apply List.map_congr_left
      intro i hi
      simp only [List.mem_range] at hi
      have : (s.tail + i) % 256 ≠ s.head := by
        simp only [countQ] at hi
        omega
      simp [this]
    · have : (s.tail + countQ s) % 256 = s.head := by
        simp only [countQ]
        omega
      simp [this]

/-- Popping from an empty buffer returns `none` and leaves the state
unchanged. -/
lemma read_frame_empty {s : CanState} (h : s.head = s.tail) :
    read_frame_from_software_CAN_buffer s = (none, s) := by
  simp [read_frame_from_software_CAN_buffer, h]

/-- Popping from a non-empty buffer returns the oldest frame and advances
`tail`; the abstract FIFO loses exactly its first element. -/
lemma read_frame_nonempty {s : CanState} (hw : BufWF s)
    (hpos : 0 < countQ s) :
    read_frame_from_software_CAN_buffer s =
      (some (s.CAN_ring_buffer s.tail),
       { s with tail := (s.tail + 1) % 256 }) ∧
    BufWF { s with tail := (s.tail + 1) % 256 } ∧
    countQ { s with tail := (s.tail + 1) % 256 } = countQ s - 1 ∧
    absQ s = s.CAN_ring_buffer s.tail ::
      absQ { s with tail := (s.tail + 1) % 256 } := by
  obtain ⟨hh, ht⟩ := hw
  have hne : s.head ≠ s.tail := by
    simp only [countQ] at hpos
    omega
  have hm := land_mask_eq_mod (s.tail + 1)
  refine ⟨?_, ⟨hh, Nat.mod_lt _ (by decide)⟩, ?_, ?_⟩
  · unfold read_frame_from_software_CAN_buffer
    rw [if_neg hne, hm]
  · simp only [countQ]
    omega
  · have hcount :
        countQ { s with tail := (s.tail + 1) % 256 } = countQ s - 1 := by
      simp only [countQ]
      omega
    obtain ⟨c, hc⟩ : ∃ c, countQ s = c + 1 := ⟨countQ s - 1, by omega⟩
    simp only [absQ, hcount, hc, Nat.add_sub_cancel]
    rw [List.range_succ_eq_map, List.map_cons, List.map_map]
    congr 1
    · congr 1
      omega
    · apply List.map_congr_left
      intro i hi
      simp only [Function.comp_apply]
      congr 1
      omega

/-- Record-update idempotence helper: writing `tail := s.tail` is the
identity. -/
lemma canState_eta (s : CanState) : { s with tail := s.tail } = s := rfl

/-- When the buffer is empty, setting `tail := head` changes nothing. -/
lemma tail_catchup_eq {s : CanState} (h : s.head = s.tail) :
    { s with tail := s.head } = s := by
  obtain ⟨b, hd, tl, f1, f2⟩ := s
  change hd = tl at h
  subst h
  rfl

/-- A full drain of the software buffer: with enough fuel (the buffer never
holds more than 255 frames, so 256 always suffices) the pop loop returns
exactly the abstract FIFO contents, oldest first, and leaves the buffer
empty with `tail` caught up to `head`. -/
lemma uart_drain_loop_spec :
    ∀ (fuel : Nat) (s : CanState), BufWF s → countQ s ≤ fuel →
      uart_drain_loop fuel s = (absQ s, { s with tail := s.head }) := by
  intro fuel
  induction fuel with
  | zero =>
      intro s hw hc
      have hc0 : countQ s = 0 := by omega
      have hht : s.head = s.tail := by
        obtain ⟨hh, ht⟩ := hw
        simp only [countQ] at hc0
        omega
      rw [absQ_of_countQ_zero hc0, tail_catchup_eq hht]
      rfl
  | succ fuel ih =>
      intro s hw hc
      by_cases hht : s.head = s.tail
      · have hc0 : countQ s = 0 := by
          obtain ⟨hh, ht⟩ := hw
          simp only [countQ]
          omega
        rw [absQ_of_countQ_zero hc0, tail_catchup_eq hht]
        simp [uart_drain_loop, read_frame_empty hht]
      · have hpos : 0 < countQ s := by
          obtain ⟨hh, ht⟩ := hw
          simp only [countQ]
          omega
        obtain ⟨hread, hw', hc', habs⟩ := read_frame_nonempty hw hpos
        have hrec := ih { s with tail := (s.tail + 1) % 256 } hw' (by omega)
        show (match read_frame_from_software_CAN_buffer s with
              | (none, _) => ([], s)
              | (some f, s') =>
                  let p := uart_drain_loop fuel s'
                  (f :: p.1, p.2)) = (absQ s, { s with tail := s.head })
        rw [hread]
        simp only [hrec, habs]

/-- Enqueuing a whole list of frames while the buffer has room for all of
them: every enqueue succeeds, the abstract FIFO grows by exactly that list
(in order, nothing overwritten), and `tail` and both flags are untouched. -/
lemma enqueueAll_spec :
    ∀ (L : List my_CAN_Frame) (s : CanState), BufWF s →
      countQ s + L.length ≤ 255 →
      BufWF (enqueueAll s L) ∧
      countQ (enqueueAll s L) = countQ s + L.length ∧
      (enqueueAll s L).tail = s.tail ∧
      (enqueueAll s L).software_CAN_buffer_overflow
        = s.software_CAN_buffer_overflow ∧
      (enqueueAll s L).hardware_CAN_buffer_overflow
        = s.hardware_CAN_buffer_overflow ∧
      absQ (enqueueAll s L) = absQ s ++ L := by
  intro L
  induction L with
  | nil =>
      intro s hw _
      exact ⟨hw, by simp [enqueueAll], rfl, rfl, rfl, by simp [enqueueAll]⟩
  | cons f rest ih =>
      intro s hw hroom
      have hnf : countQ s < 255 := by
        simp only [List.length_cons] at hroom
        omega
      obtain ⟨_, htl, hsw, hhw, hw', hc', habs⟩ :=
        enqueue_frame_not_full hw hnf f
      have step : enqueueAll s (f :: rest) = enqueueAll (enqueue_frame s f) rest := rfl
      obtain ⟨w1, w2, w3, w4, w5, w6⟩ :=
        ih (enqueue_frame s f) hw'
          (by simp only [List.length_cons] at hroom; omega)
      refine ⟨by rw [step]; exact w1, ?_, ?_, ?_, ?_, ?_⟩
      · rw [step, w2, hc']
        simp [List.length_cons]
        omega
      · rw [step, w3, htl]
      · rw [step, w4, hsw]
      · rw [step, w5, hhw]
      · rw [step, w6, habs]
        simp

/-! ## Configuration lemmas -/

/-- The manual-configuration scan succeeds on the first entry whose
baudrate matches the request. -/
lemma manual_loop_found (b : Nat) (st : my_CAN_Status) :
    ∀ l : List my_CAN_BitTiming, (∃ e ∈ l, e.baudrate = b) →
      manual_loop b st l = ⟨true, b, st.filter_id, st.mask_id⟩ := by
  intro l
  induction l with
  | nil =>
      rintro ⟨e, he, -⟩
      cases he
  | cons e rest ih =>
      rintro ⟨e', he', hb⟩
      by_cases h : e.baudrate = b
      · simp [manual_loop, h]
      · have hmem : e' ∈ rest := by
          rcases List.mem_cons.mp he' with h1 | h1
          · exact absurd (h1 ▸ hb) h
          · exact h1
        simp only [manual_loop, if_pos h, ne_eq]
        exact ih ⟨e', hmem, hb⟩

/-- The manual-configuration scan falls through when no entry matches. -/
lemma manual_loop_missed (b : Nat) (st : my_CAN_Status) :
    ∀ l : List my_CAN_BitTiming, (∀ e ∈ l, e.baudrate ≠ b) →
      manual_loop b st l = ⟨false, 0, st.filter_id, st.mask_id⟩ := by
  intro l
  induction l with
  | nil => intro _; rfl
  | cons e rest ih =>
      intro hnone
      have h : e.baudrate ≠ b := hnone e (List.mem_cons_self e rest)
      simp only [manual_loop]
      rw [if_pos h]
      exact ih (fun e' he' => hnone e' (List.mem_cons_of_mem e he'))

/-- The auto-baud probe loop with no traffic anywhere in its remaining
range tries every remaining entry, in order, and reports failure with the
stored filter and mask preserved. -/
lemma auto_loop_no_traffic (traffic : Nat → Bool) (st : my_CAN_Status) :
    ∀ (fuel i : Nat), (∀ j, i ≤ j → j < i + fuel → traffic j = false) →
      auto_loop traffic st i fuel =
        (⟨false, 0, st.filter_id, st.mask_id⟩, List.range' i fuel) := by
  intro fuel
  induction fuel with
  | zero => intro i _; rfl
  | succ fuel ih =>
      intro i hno
      have hti : traffic i = false := hno i le_rfl (by omega)
      have hrec := ih (i + 1) (fun j h1 h2 => hno j (by omega) (by omega))
      simp [auto_loop, hti, hrec, List.range'_succ]

/-- The auto-baud probe loop with traffic first appearing at entry `k`
tries exactly the entries from its start up to `k`, in order, and reports
success with entry `k`'s baudrate, preserving the stored filter/mask. -/
lemma auto_loop_traffic_at (traffic : Nat → Bool) (st : my_CAN_Status) :
    ∀ (fuel i k : Nat), i ≤ k → k < i + fuel → traffic k = true →
      (∀ j, i ≤ j → j < k → traffic j = false) →
      auto_loop traffic st i fuel =
        (⟨true, (can_timings.getD k ⟨0, 0, 0, 0⟩).baudrate,
          st.filter_id, st.mask_id⟩,
         List.range' i (k + 1 - i)) := by
  intro fuel
  induction fuel with
  | zero =>
      intro i k h1 h2 _ _
      exact absurd h2 (by omega)
  | succ fuel ih =>
      intro i k h1 h2 htk hbefore
      by_cases hik : i = k
      · subst hik
        simp [auto_loop, htk]
      · have hti : traffic i = false := hbefore i le_rfl (by omega)
        have hrec := ih (i + 1) k (by omega) (by omega) htk
          (fun j ha hb => hbefore j (by omega) hb)
        simp only [auto_loop, hti, Bool.false_eq_true, if_false, hrec]
        rw [show k + 1 - i = (k - i) + 1 by omega, List.range'_succ]
        have : k + 1 - (i + 1) = k - i := by omega
        rw [this]

/-- The bounded FIFO drain performs exactly `min (queue depth) fuel`
successful hardware reads. -/
lemma rx_drain_loop_count :
    ∀ (n : Nat) (q : List RxMessage) (s : CanState),
      (rx_drain_loop n q s).2 = min q.length n := by
  intro n
  induction n with
  | zero => intro q s; simp [rx_drain_loop]
  | succ n ih =>
      intro q s
      cases q with
      | nil => simp [rx_drain_loop]
      | cons m rest =>
          simp only [rx_drain_loop, ih, List.length_cons]
          omega

def C5_prop (fuel : Nat) (s : CanState) : Prop :=
  (send_frame_over_UART fuel s).1 =
    (if s.hardware_CAN_buffer_overflow then ["Hardware CAN FIFO overflow!\r\n"] else []) ++
    (if s.software_CAN_buffer_overflow then ["Software CAN buffer overflow!\r\n"] else []) ++
    (absQ s).map render_frame ∧
  (send_frame_over_UART fuel s).2.hardware_CAN_buffer_overflow = false ∧
  (send_frame_over_UART fuel s).2.software_CAN_buffer_overflow = false ∧
  absQ (send_frame_over_UART fuel s).2 = [] ∧
  (send_frame_over_UART fuel s).2.head = s.head ∧
  (send_frame_over_UART fuel s).2.CAN_ring_buffer = s.CAN_ring_buffer ∧
  (absQ s = [] → (send_frame_over_UART fuel s).2.tail = s.tail)

lemma absQ_tail_catchup (s2 : CanState) : absQ { s2 with tail := s2.head } = [] := by
  apply absQ_of_countQ_zero
  simp only [countQ]
  omega

lemma countQ_eq_zero_of_absQ_nil {s : CanState} (hw : BufWF s) (h : absQ s = []) :
    s.head = s.tail := by
  obtain ⟨hh, ht⟩ := hw
  have hc : countQ s = 0 := by
    by_contra hc
    have hpos : 0 < countQ s := Nat.pos_of_ne_zero hc
    simp only [absQ, List.map_eq_nil_iff, List.range_eq_nil] at h
    omega
  simp only [countQ] at hc
  omega

lemma uart_drain_loop_spec_mk (b : Nat → my_CAN_Frame) (hd tl : Nat)
    (f1 f2 : Bool) (hh : hd < 256) (ht : tl < 256) :
    uart_drain_loop 256 ⟨b, hd, tl, f1, f2⟩ =
      (absQ ⟨b, hd, tl, f1, f2⟩, ⟨b, hd, hd, f1, f2⟩) :=
  uart_drain_loop_spec 256 ⟨b, hd, tl, f1, f2⟩ ⟨hh, ht⟩
    (Nat.le_of_lt (countQ_lt _))

lemma send_frame_over_UART_spec (s : CanState) (hw : BufWF s) : C5_prop 256 s := by
  obtain ⟨hh, ht⟩ := hw
  unfold C5_prop send_frame_over_UART
  cases hhw : s.hardware_CAN_buffer_overflow <;>
    cases hsw : s.software_CAN_buffer_overflow
  · simp only [hhw, hsw, Bool.false_eq_true, if_false, List.nil_append]
    rw [uart_drain_loop_spec 256 _ ⟨hh, ht⟩ (Nat.le_of_lt (countQ_lt _))]
    exact ⟨rfl, hhw, hsw, absQ_tail_catchup _, rfl, rfl,
      fun habs => countQ_eq_zero_of_absQ_nil ⟨hh, ht⟩ habs⟩
  · simp only [hhw, hsw, Bool.false_eq_true, if_false, if_true, List.nil_append]
    rw [uart_drain_loop_spec_mk s.CAN_ring_buffer s.head s.tail false false hh ht]
    exact ⟨rfl, rfl, rfl, absQ_tail_catchup _, rfl, rfl,
      fun habs => countQ_eq_zero_of_absQ_nil ⟨hh, ht⟩ habs⟩
  · simp only [hhw, hsw, Bool.false_eq_true, if_false, if_true, List.nil_append]
    rw [uart_drain_loop_spec_mk s.CAN_ring_buffer s.head s.tail false false hh ht]
    exact ⟨rfl, rfl, rfl, absQ_tail_catchup _, rfl, rfl,
      fun habs => countQ_eq_zero_of_absQ_nil ⟨hh, ht⟩ habs⟩
  · simp only [hhw, hsw, if_true, List.nil_append]
    rw [uart_drain_loop_spec_mk s.CAN_ring_buffer s.head s.tail false false hh ht]
    exact ⟨rfl, rfl, rfl, absQ_tail_catchup _, rfl, rfl,
      fun habs => countQ_eq_zero_of_absQ_nil ⟨hh, ht⟩ habs⟩

/-! ## Sample values used by the claim witnesses -/

/-- A sample configuration status with distinctive filter/mask values. -/
def sampleStatus : my_CAN_Status := ⟨false, 0, 5, 7⟩

/-- A sample (zero-initialised) hardware filter configuration. -/
def sampleFilter : FDCAN_FilterTypeDef :=
  ⟨.FDCAN_STANDARD_ID, 0, .FDCAN_FILTER_MASK, .FDCAN_FILTER_TO_RXFIFO0, 0, 0⟩

/-- Sample frame A. -/
def frameA : my_CAN_Frame := ⟨0x100, 1, [0x11, 0, 0, 0, 0, 0, 0, 0]⟩

/-- Sample frame B. -/
def frameB : my_CAN_Frame := ⟨0x200, 2, [0x22, 0x33, 0, 0, 0, 0, 0, 0]⟩

/-- Sample frame C. -/
def frameC : my_CAN_Frame := ⟨0x300, 3, [0x44, 0x55, 0x66, 0, 0, 0, 0, 0]⟩

/-! ## Claim theorems -/

/-- C2: strict FIFO order.  For every sequence of at most 255 frames (no
overflow) enqueued into the initially empty capture buffer, draining the
buffer returns exactly those frames in enqueue order, and one further
dequeue on the drained buffer reports empty.  In particular, enqueuing
A, B, C and dequeuing three times yields A, B, C and a fourth dequeue
reports empty. -/
theorem C2_fifo_order (L : List my_CAN_Frame) (hL : L.length ≤ 255) :
    (uart_drain_loop 256 (enqueueAll initCanState L)).1 = L ∧
    (read_frame_from_software_CAN_buffer
      (uart_drain_loop 256 (enqueueAll initCanState L)).2).1 = none := by
  obtain ⟨hw, hc, -, -, -, habs⟩ :=
    enqueueAll_spec L initCanState bufWF_init (by rw [countQ_init]; omega)
  have hd := uart_drain_loop_spec 256 (enqueueAll initCanState L) hw
    (Nat.le_of_lt (countQ_lt _))
  rw [hd, habs, absQ_init]
  refine ⟨by simp, ?_⟩
  rw [read_frame_empty rfl]

/-- C2 witness: the concrete A, B, C instance. -/
theorem C2_fifo_order_witness :
    ([frameA, frameB, frameC].length ≤ 255) ∧
    (uart_drain_loop 256 (enqueueAll initCanState [frameA, frameB, frameC])).1
      = [frameA, frameB, frameC] ∧
    (read_frame_from_software_CAN_buffer
      (uart_drain_loop 256
        (enqueueAll initCanState [frameA, frameB, frameC])).2).1 = none :=
  ⟨by decide, (C2_fifo_order [frameA, frameB, frameC] (by decide)).1,
    (C2_fifo_order [frameA, frameB, frameC] (by decide)).2⟩

/-- Enqueuing `L ++ [f]` is enqueuing `L` and then `f`. -/
lemma enqueueAll_append_singleton (s : CanState) (L : List my_CAN_Frame)
    (f : my_CAN_Frame) :
    enqueueAll s (L ++ [f]) = enqueue_frame (enqueueAll s L) f := by
  show (L ++ [f]).foldl enqueue_frame s = _
  rw [List.foldl_append]
  rfl

/-- C1 counterexample: the claim asserts that, starting from an empty
buffer, all `N = SOFTWARE_CAN_BUFFER_SIZE = 256` enqueues succeed and only
the `(N+1)`-th is dropped.  In fact the full test `next_head == tail` fires
already on the 256th enqueue: after 256 enqueue attempts from empty the
software overflow flag is set and only 255 frames are stored. -/
theorem C1_counterexample :
    (enqueueAll initCanState (List.replicate SOFTWARE_CAN_BUFFER_SIZE zeroFrame)).software_CAN_buffer_overflow = true ∧
    countQ (enqueueAll initCanState (List.replicate SOFTWARE_CAN_BUFFER_SIZE zeroFrame)) = 255 := by
  have hsplit :
      List.replicate SOFTWARE_CAN_BUFFER_SIZE zeroFrame =
        List.replicate 255 zeroFrame ++ [zeroFrame] := by
    rw [show SOFTWARE_CAN_BUFFER_SIZE = 255 + 1 from rfl,
      List.replicate_succ']
  have h0 : countQ initCanState = 0 := countQ_init
  have hlen : (List.replicate 255 zeroFrame).length = 255 :=
    List.length_replicate 255 zeroFrame
  obtain ⟨hw, hc, -, -, -, -⟩ :=
    enqueueAll_spec (List.replicate 255 zeroFrame) initCanState bufWF_init
      (by omega)
  have hfull : countQ (enqueueAll initCanState (List.replicate 255 zeroFrame))
      = 255 := by omega
  have hstep :
      enqueueAll initCanState (List.replicate SOFTWARE_CAN_BUFFER_SIZE zeroFrame) =
        enqueue_frame
          (enqueueAll initCanState (List.replicate 255 zeroFrame)) zeroFrame := by
    rw [hsplit, enqueueAll_append_singleton]
  rw [hstep, enqueue_frame_full hw hfull]
  exact ⟨rfl, hfull⟩

/-- The statement of the amended claim C1, parameterised by the 255 frames
filling the buffer, the dropped frame `f` and the frame `g` enqueued after
one dequeue. -/
def C1_amended_prop (L : List my_CAN_Frame) (f g : my_CAN_Frame) : Prop :=
  (enqueueAll initCanState L).software_CAN_buffer_overflow = false ∧
  absQ (enqueueAll initCanState L) = L ∧
  enqueue_frame (enqueueAll initCanState L) f =
    { enqueueAll initCanState L with software_CAN_buffer_overflow := true } ∧
  absQ (enqueue_frame (enqueueAll initCanState L) f) = L ∧
  (read_frame_from_software_CAN_buffer (enqueueAll initCanState L)).1
    = L.head? ∧
  (enqueue_frame
    (read_frame_from_software_CAN_buffer
      (enqueueAll initCanState L)).2 g).software_CAN_buffer_overflow
    = false ∧
  absQ (enqueue_frame
    (read_frame_from_software_CAN_buffer (enqueueAll initCanState L)).2 g)
    = L.tail ++ [g]

/-- C1 (amended): for the 256-slot ring buffer, starting from empty, the
first 255 enqueues all succeed with the software-overflow flag clear and
every frame retained in order; the 256th enqueue is dropped, sets the
software-overflow flag and overwrites no unread slot (the stored contents
are unchanged); and after exactly one dequeue (which returns the oldest
frame) the next enqueue succeeds again. -/
theorem C1_capacity_amended (L : List my_CAN_Frame) (f g : my_CAN_Frame)
    (hL : L.length = 255) : C1_amended_prop L f g := by
  have h0 : countQ initCanState = 0 := countQ_init
  obtain ⟨hw, hc, -, hsw, -, habs⟩ :=
    enqueueAll_spec L initCanState bufWF_init (by omega)
  set s := enqueueAll initCanState L with hs
  have habs' : absQ s = L := by rw [habs, absQ_init, List.nil_append]
  have hcfull : countQ s = 255 := by omega
  have hswv : s.software_CAN_buffer_overflow = false := by
    rw [hsw]; rfl
  have hdrop := enqueue_frame_full hw hcfull f
  have hpos : 0 < countQ s := by omega
  obtain ⟨hread, hw', hc', hcons⟩ := read_frame_nonempty hw hpos
  have hL0 : L = s.CAN_ring_buffer s.tail ::
      absQ { s with tail := (s.tail + 1) % 256 } := by rw [← habs', hcons]
  obtain ⟨-, -, hsw'', -, -, -, habs''⟩ :=
    enqueue_frame_not_full hw' (by omega) g
  refine ⟨hswv, habs', hdrop, ?_, ?_, ?_, ?_⟩
  · rw [hdrop]
    exact habs'
  · rw [hread, hL0]
    rfl
  · rw [hread, hsw'']
    exact hswv
  · rw [hread, habs'']
    rw [hL0]
    rfl

/-- C1 witness: the amended claim at the concrete input of 255 copies of
the zero frame, with the zero frame as the dropped and re-enqueued frame. -/
theorem C1_capacity_amended_witness :
    (List.replicate 255 zeroFrame).length = 255 ∧
    C1_amended_prop (List.replicate 255 zeroFrame) zeroFrame zeroFrame :=
  ⟨List.length_replicate 255 zeroFrame,
    C1_capacity_amended (List.replicate 255 zeroFrame) zeroFrame zeroFrame
      (List.length_replicate 255 zeroFrame)⟩

/-- C3: auto configuration.  If no probed table entry shows traffic, every
entry is attempted exactly once in table order and the result is
unconfigured with bit-rate 0; if traffic first appears at entry `k`, the
attempts are exactly entries `0..k` in order and the result is configured
with entry `k`'s baudrate.  In both cases the stored filter and mask ids
are returned unchanged. -/
theorem C3_auto_configuration (st : my_CAN_Status) (traffic : Nat → Bool) :
    ((∀ i, i < baudrates_nbr → traffic i = false) →
      my_CAN_auto_configuration traffic st =
        (⟨false, 0, st.filter_id, st.mask_id⟩, List.range baudrates_nbr)) ∧
    (∀ k, k < baudrates_nbr → traffic k = true →
      (∀ i, i < k → traffic i = false) →
      my_CAN_auto_configuration traffic st =
        (⟨true, (can_timings.getD k ⟨0, 0, 0, 0⟩).baudrate,
          st.filter_id, st.mask_id⟩, List.range (k + 1))) := by
  constructor
  · intro hno
    unfold my_CAN_auto_configuration
    rw [auto_loop_no_traffic traffic st baudrates_nbr 0
      (fun j _ h2 => hno j (by omega))]
    rw [List.range_eq_range']
  · intro k hk htk hbefore
    unfold my_CAN_auto_configuration
    rw [auto_loop_traffic_at traffic st baudrates_nbr 0 k (Nat.zero_le k)
      (by omega) htk (fun j _ hb => hbefore j hb)]
    rw [List.range_eq_range']
    norm_num

/-- C3 witness: a silent bus attempts all 12 entries and fails; a bus with
traffic from entry 8 (400 kbit/s) on attempts entries 0..8 and succeeds
with 400000, keeping the stored filter 5 and mask 7. -/
theorem C3_auto_configuration_witness :
    (∀ i, i < baudrates_nbr → (fun _ : Nat => false) i = false) ∧
    my_CAN_auto_configuration (fun _ : Nat => false) sampleStatus =
      (⟨false, 0, 5, 7⟩, List.range 12) ∧
    ((fun i : Nat => decide (8 ≤ i)) 8 = true) ∧
    (∀ i, i < 8 → (fun i : Nat => decide (8 ≤ i)) i = false) ∧
    my_CAN_auto_configuration (fun i : Nat => decide (8 ≤ i)) sampleStatus =
      (⟨true, 400000, 5, 7⟩, List.range 9) :=
  ⟨fun _ _ => rfl,
   (C3_auto_configuration sampleStatus (fun _ => false)).1 (fun _ _ => rfl),
   by decide,
   by decide,
   (C3_auto_configuration sampleStatus (fun i => decide (8 ≤ i))).2 8
     (by decide) (by decide) (by decide)⟩

/-- C4: manual configuration.  For every baudrate present in the timing
table the returned (and stored) status is configured with exactly the
requested bit-rate; for every baudrate not in the table it is unconfigured
with bit-rate 0.  In both cases the stored filter and mask ids are carried
over unchanged. -/
theorem C4_manual_configuration (b : Nat) (st : my_CAN_Status) :
    ((∃ e ∈ can_timings, e.baudrate = b) →
      my_CAN_manual_configuration b st =
        ⟨true, b, st.filter_id, st.mask_id⟩) ∧
    ((∀ e ∈ can_timings, e.baudrate ≠ b) →
      my_CAN_manual_configuration b st =
        ⟨false, 0, st.filter_id, st.mask_id⟩) :=
  ⟨fun h => manual_loop_found b st can_timings h,
   fun h => manual_loop_missed b st can_timings h⟩

/-- C4 witness: 125000 is in the table and configures to 125000; 123 is
not and leaves the status unconfigured; filter 5 and mask 7 survive both
calls. -/
theorem C4_manual_configuration_witness :
    (∃ e ∈ can_timings, e.baudrate = 125000) ∧
    my_CAN_manual_configuration 125000 sampleStatus =
      ⟨true, 125000, 5, 7⟩ ∧
    (∀ e ∈ can_timings, e.baudrate ≠ 123) ∧
    my_CAN_manual_configuration 123 sampleStatus = ⟨false, 0, 5, 7⟩ :=
  ⟨by decide,
   (C4_manual_configuration 125000 sampleStatus).1 (by decide),
   by decide,
   (C4_manual_configuration 123 sampleStatus).2 (by decide)⟩

/-- A sample state for the reporting witness: both overflow flags latched
and one frame buffered. -/
def c5SampleState : CanState :=
  enqueue_frame
    { initCanState with
      software_CAN_buffer_overflow := true
      hardware_CAN_buffer_overflow := true } frameA

/-- C5: the report path.  For every well-formed buffer state, one call
emits first one notice per latched overflow flag (hardware before
software), then every buffered frame in FIFO order; the returned state has
both flags cleared and an empty buffer, the ring storage and `head` are
untouched, and on an already-empty buffer nothing is popped (`tail` does
not even move: the call returns immediately).  Each frame renders as
`ID: 0x%03X, DLC: %d, Data:` plus one ` %02X` per payload byte plus a
blank line; in particular the frame {0x123, 3, [AA BB CC]} renders as
`ID: 0x123, DLC: 3, Data: AA BB CC` followed by the blank line. -/
theorem C5_drain_and_report :
    (∀ s : CanState, BufWF s → C5_prop 256 s) ∧
    render_frame ⟨0x123, 3, [0xAA, 0xBB, 0xCC]⟩ =
      "ID: 0x123, DLC: 3, Data: AA BB CC\r\n\n" :=
  ⟨send_frame_over_UART_spec, by decide⟩

/-- C5 witness: the report contract evaluated on the concrete sample state
(both flags latched, one buffered frame). -/
theorem C5_drain_and_report_witness :
    BufWF c5SampleState ∧ C5_prop 256 c5SampleState :=
  ⟨⟨by decide, by decide⟩,
    C5_drain_and_report.1 c5SampleState ⟨by decide, by decide⟩⟩

/-- C6: `set_filter_mask` truncates both arguments to their 11-bit range
(`x & 0x7FF`, i.e. `x mod 2^11`) before storing them in the status and in
the hardware filter structure, and leaves `is_set` and `baudrate`
untouched; in particular the input 0x1FFF stores 0x7FF. -/
theorem C6_set_filter_mask :
    (∀ (f m : Nat) (st : my_CAN_Status) (sf : FDCAN_FilterTypeDef),
      (my_CAN_set_filter_mask f m st sf).1.filter_id = f % 2048 ∧
      (my_CAN_set_filter_mask f m st sf).1.mask_id = m % 2048 ∧
      (my_CAN_set_filter_mask f m st sf).1.is_set = st.is_set ∧
      (my_CAN_set_filter_mask f m st sf).1.baudrate = st.baudrate ∧
      (my_CAN_set_filter_mask f m st sf).2.FilterID1 = f % 2048 ∧
      (my_CAN_set_filter_mask f m st sf).2.FilterID2 = m % 2048) ∧
    (my_CAN_set_filter_mask 0x1FFF 0 sampleStatus sampleFilter).1.filter_id
      = 0x7FF := by
  constructor
  · intro f m st sf
    have hf : f &&& 0x7FF = f % 2048 := by
      have h := Nat.and_pow_two_sub_one_eq_mod f 11
      norm_num at h
      exact h
    have hm : m &&& 0x7FF = m % 2048 := by
      have h := Nat.and_pow_two_sub_one_eq_mod m 11
      norm_num at h
      exact h
    exact ⟨hf, hm, rfl, rfl, hf, hm⟩
  · decide

/-- A sample configured status for the start witness. -/
def configuredStatus : my_CAN_Status := ⟨true, 500000, 5, 7⟩

/-- C7: `start`.  With an unconfigured status it returns `false`, issues no
hardware call at all and leaves the filter structure unchanged.  With a
configured status it returns `true`, issues exactly one controller start
and exactly one notification-enable call, and programs the controller with
the stored filter/mask as a standard-ID mask filter at index 0 routed to
RX FIFO 0. -/
theorem C7_start (st : my_CAN_Status) (sf : FDCAN_FilterTypeDef) :
    (st.is_set = false → my_CAN_start st sf = (false, sf, [])) ∧
    (st.is_set = true →
      (my_CAN_start st sf).1 = true ∧
      (my_CAN_start st sf).2.2.count HWEvent.fdcanStart = 1 ∧
      (my_CAN_start st sf).2.2.count HWEvent.activateNotification = 1 ∧
      (my_CAN_start st sf).2.1 =
        ⟨.FDCAN_STANDARD_ID, 0, .FDCAN_FILTER_MASK, .FDCAN_FILTER_TO_RXFIFO0,
          st.filter_id, st.mask_id⟩ ∧
      (my_CAN_start st sf).2.2 =
        [.fdcanInit, .configGlobalFilter,
         .configFilter (my_CAN_start st sf).2.1, .fdcanStart,
         .activateNotification]) := by
  constructor
  · intro h
    simp [my_CAN_start, h]
  · intro h
    simp only [my_CAN_start, h, if_true]
    exact ⟨trivial, rfl, rfl, trivial, trivial⟩

/-- C7 witness: the start contract evaluated on an unconfigured and on a
configured sample status. -/
theorem C7_start_witness :
    (sampleStatus.is_set = false) ∧
    my_CAN_start sampleStatus sampleFilter = (false, sampleFilter, []) ∧
    (configuredStatus.is_set = true) ∧
    ((my_CAN_start configuredStatus sampleFilter).1 = true ∧
     (my_CAN_start configuredStatus sampleFilter).2.2.count
       HWEvent.fdcanStart = 1 ∧
     (my_CAN_start configuredStatus sampleFilter).2.2.count
       HWEvent.activateNotification = 1 ∧
     (my_CAN_start configuredStatus sampleFilter).2.1 =
       ⟨.FDCAN_STANDARD_ID, 0, .FDCAN_FILTER_MASK, .FDCAN_FILTER_TO_RXFIFO0,
         configuredStatus.filter_id, configuredStatus.mask_id⟩ ∧
     (my_CAN_start configuredStatus sampleFilter).2.2 =
       [.fdcanInit, .configGlobalFilter,
        .configFilter (my_CAN_start configuredStatus sampleFilter).2.1,
        .fdcanStart, .activateNotification]) :=
  ⟨rfl, (C7_start sampleStatus sampleFilter).1 rfl, rfl,
   (C7_start configuredStatus sampleFilter).2 rfl⟩

/-- C8: `stop`.  From every state it resets the buffer indices to
`head = tail = 0` — so the buffer reads as empty and a subsequent pop
reports empty, discarding any pending frames — while issuing exactly a
controller-stop and a notification-disable call; and it is idempotent:
stopping twice yields the same state and calls as stopping once. -/
theorem C8_stop (s : CanState) :
    (my_CAN_stop s).1.head = 0 ∧
    (my_CAN_stop s).1.tail = 0 ∧
    absQ (my_CAN_stop s).1 = [] ∧
    (read_frame_from_software_CAN_buffer (my_CAN_stop s).1).1 = none ∧
    (my_CAN_stop s).2 = [HWEvent.fdcanStop, HWEvent.deactivateNotification] ∧
    my_CAN_stop (my_CAN_stop s).1 = my_CAN_stop s := by
  refine ⟨rfl, rfl, ?_, ?_, rfl, rfl⟩
  · apply absQ_of_countQ_zero
    simp [countQ, my_CAN_stop]
  · rw [read_frame_empty rfl]

/-- C9: the RX interrupt handler's drain loop is bounded: one invocation
performs exactly `min (hardware queue depth) 32` successful reads —
stopping early on an empty queue and never exceeding 32 reads regardless
of burst size. -/
theorem C9_rx_callback_bounded (message_lost : Bool)
    (fifo : List RxMessage) (s : CanState) :
    (HAL_FDCAN_RxFifo0Callback message_lost fifo s).2 = min fifo.length 32 ∧
    (HAL_FDCAN_RxFifo0Callback message_lost fifo s).2 ≤ 32 := by
  have h := rx_drain_loop_count 32 fifo
    (if message_lost then
      { s with hardware_CAN_buffer_overflow := true } else s)
  constructor
  · exact h
  · rw [show (HAL_FDCAN_RxFifo0Callback message_lost fifo s).2
      = min fifo.length 32 from h]
    omega

/-- The payload indices touched for a controller-reported data length
`dl`: the ingest `memcpy` writes bytes `0..dl-1` and the reporter loop
reads `Data[i]` for `i = 0..dl-1`. -/
def accessed_payload_indices (dl : Nat) : List Nat := List.range dl

/-- C10: neither ingest nor report validates or clamps the
controller-reported data length — `frame_of_rx` stores `DataLength`
verbatim and the reporter reads exactly the payload indices
`0..DataLength-1` — and all those accesses stay within the 8-byte payload
array if and only if the reported length is at most 8. -/
theorem C10_payload_bounds :
    (∀ msg : RxMessage, (frame_of_rx msg).DataLength
      = msg.header.DataLength) ∧
    (∀ f : my_CAN_Frame,
      render_frame f =
        "ID: 0x" ++ zeroPadHex 3 f.Identifier ++ ", DLC: " ++
        Nat.repr f.DataLength ++ ", Data:" ++
        String.join ((accessed_payload_indices f.DataLength).map
          (fun i => " " ++ zeroPadHex 2 (f.Data.getD i 0))) ++ "\r\n\n") ∧
    (∀ dl : Nat, (∀ i ∈ accessed_payload_indices dl, i < 8) ↔ dl ≤ 8) := by
  refine ⟨fun _ => rfl, fun _ => rfl, fun dl => ?_⟩
  simp only [accessed_payload_indices, List.mem_range]
  constructor
  · intro h
    by_contra hgt
    exact absurd (h 8 (by omega)) (by omega)
  · intro h i hi
    omega
